import Mathlib

/-!
Verification of the simple MCP + LangChain REPL agent (`simple-agent/main.py`)
against its natural-language specification.

The shallow embedding below translates the observable behaviour of `main()`:
the conversation history (a list of role/content messages), one REPL turn
(the body of the `while True` loop), the whole REPL run over a finite input
stream, and the surrounding one-time setup (tool discovery, banner, system
prompt).  The LLM agent invocation (`agent.ainvoke`) is an opaque oracle
parameter returning either the framework's message list or an error, exactly
as the `try`/`except` block in the source consumes it.

The reasoning loop inside `create_react_agent` is library code that is not
part of this repository; where a claim is about that loop it is modelled
from the specification (section 4.4), and those definitions say so in their
doc comments.
-/

namespace SimpleAgent

/-- A chat message: a role (`"system"`, `"user"`, `"assistant"`, ...) and a
text content, mirroring the dicts appended to `messages` in `main.py`. -/
structure Message where
  role : String
  content : String
deriving DecidableEq, Repr

/-- The system prompt installed in `messages` before the REPL loop starts
(`main.py`, the `messages = [...]` initialisation). -/
def systemMessage : Message :=
  ⟨"system",
   "You are a helpful assistant that can scrape websites, crawl pages, and extract data using Firecrawl tools. Think step by step and use the appropriate tools."⟩

/-- The input cap used by `main.py`: `user_input[:175000]`. -/
def inputCap : Nat := 175000

/-- Python's `user_input[:175000]`: keep the first 175000 code points. -/
def truncateInput (s : String) : String := ⟨s.data.take inputCap⟩

/-- The user message appended to history for one turn:
`{"role": "user", "content": user_input[:175000]}`. -/
def userMsg (input : String) : Message := ⟨"user", truncateInput input⟩

/-- Observable events of a run: showing an input prompt, printing a line of
output, the one-time tool discovery (`load_mcp_tools`), and each agent
invocation (recording the tool catalog and the history passed to it). -/
inductive Event where
  | promptEv (s : String)
  | outputEv (s : String)
  | discoverEv (toolNames : List String)
  | invokeEv (toolNames : List String) (history : List Message)
deriving DecidableEq, Repr

/-- The result of one REPL turn: the history afterwards, the events the turn
produced, and whether the turn exited the REPL. -/
structure TurnOut where
  history : List Message
  events : List Event
  exited : Bool
deriving DecidableEq, Repr

/-- `str(IndexError)` raised by `agent_response["messages"][-1]` on an empty
list; it is caught by the same `except` clause as any other turn error. -/
def indexErrorMsg : String := "list index out of range"

/-- One iteration of `main.py`'s `while True` body after the input line has
been read.  `agentInvoke` models `agent.ainvoke({"messages": ...})`: it
returns either the framework's resulting message list or the message of a
raised exception.  Note that the source appends only the user message to
`messages`; the agent's reply is printed but never appended. -/
def replTurn (agentInvoke : List Message → Except String (List Message))
    (toolNames : List String) (history : List Message) (input : String) :
    TurnOut :=
  if input = "quit" ∨ input = "q" then
    ⟨history, [Event.outputEv "Goodbye!"], true⟩
  else
    let h' := history ++ [userMsg input]
    match agentInvoke h' with
    | Except.ok msgs =>
      match msgs.getLast? with
      | some m =>
        ⟨h', [Event.invokeEv toolNames h',
              Event.outputEv ("\nAgent: " ++ m.content)], false⟩
      | none =>
        ⟨h', [Event.invokeEv toolNames h',
              Event.outputEv ("Error: " ++ indexErrorMsg)], false⟩
    | Except.error e =>
      ⟨h', [Event.invokeEv toolNames h',
            Event.outputEv ("Error: " ++ e)], false⟩

/-- The REPL loop of `main.py` over a finite stream of input lines: each
iteration shows the prompt `"\nYou: "`, runs one turn, and stops as soon as
a turn exits (remaining inputs are never read). -/
def replRun (agentInvoke : List Message → Except String (List Message))
    (toolNames : List String) (history : List Message) :
    List String → List Message × List Event
  | [] => (history, [])
  | input :: rest =>
    let t := replTurn agentInvoke toolNames history input
    if t.exited then
      (t.history, Event.promptEv "\nYou: " :: t.events)
    else
      let r := replRun agentInvoke toolNames t.history rest
      (r.1, Event.promptEv "\nYou: " :: (t.events ++ r.2))

/-- The startup banner line: `print("Available Tools in MCP:", *names)`
prints the caption and the tool names separated by spaces. -/
def bannerLine (toolNames : List String) : String :=
  String.intercalate " " ("Available Tools in MCP:" :: toolNames)

/-- The separator line `print("-" * 60)`. -/
def dashLine : String := ⟨List.replicate 60 '-'⟩

/-- The whole of `main()` after the session handshake: tools are discovered
once (`load_mcp_tools`), the agent is built over that one catalog, the
system prompt seeds the history, the banner is printed, and then the REPL
loop runs.  Returns the final history and the full event trace. -/
def mainRun (agentInvoke : List Message → Except String (List Message))
    (toolNames : List String) (inputs : List String) :
    List Message × List Event :=
  let r := replRun agentInvoke toolNames [systemMessage] inputs
  (r.1, Event.discoverEv toolNames :: Event.outputEv (bannerLine toolNames) ::
        Event.outputEv dashLine :: r.2)

/-- Modelled from the spec: the `Agent Decision` variant of section 3 —
either `FinalAnswer(text)` or `ToolCall(tool_name, arguments)`.  The concrete
decision procedure lives inside `create_react_agent` (langgraph), which is
not part of this repository's sources. -/
inductive AgentDecision where
  | finalAnswer (text : String)
  | toolCall (name : String) (args : String)
deriving DecidableEq, Repr

/-- Modelled from the spec: the `Tool Invocation Result` of section 3 —
success payload or failure indicator with message. -/
inductive ToolResult where
  | success (content : String)
  | failure (message : String)
deriving DecidableEq, Repr

/-- Modelled from the spec: the `FinalAnswer`-shaped fallback of section 4.4
step 4, produced when the iteration bound is exceeded. -/
def abortFallback : String :=
  "Reasoning loop aborted: maximum iteration count reached."

/-- Modelled from the spec: the Reasoning Loop of section 4.4 (the loop body
of langgraph's `create_react_agent` is not under `src/`).  Given the oracle,
the tool invoker and the catalog, it runs at most `fuel` iterations over the
history.  Returns the final history, the turn's result text, and the number
of oracle queries made. -/
def reasoningLoop (oracle : List Message → AgentDecision)
    (invokeTool : String → String → ToolResult) (catalog : List String) :
    Nat → List Message → List Message × String × Nat
  | 0, h => (h, abortFallback, 0)
  | n + 1, h =>
    match oracle h with
    | AgentDecision.finalAnswer t => (h ++ [⟨"assistant", t⟩], t, 1)
    | AgentDecision.toolCall name args =>
      let obs : String :=
        if catalog.contains name then
          match invokeTool name args with
          | ToolResult.success c => c
          | ToolResult.failure m => "Tool call failed: " ++ m
        else "Tool not found: " ++ name
      let r := reasoningLoop oracle invokeTool catalog n
        (h ++ [⟨"tool-observation", obs⟩])
      (r.1, r.2.1, r.2.2 + 1)

/-- Collect, in order, the histories carried by the invoke events of a
trace. -/
def invokeHistories : List Event → List (List Message)
  | [] => []
  | Event.invokeEv _ h :: es => h :: invokeHistories es
  | _ :: es => invokeHistories es

/-- Collect, in order, the tool catalogs carried by the invoke events of a
trace. -/
def invokeCatalogs : List Event → List (List String)
  | [] => []
  | Event.invokeEv c _ :: es => c :: invokeCatalogs es
  | _ :: es => invokeCatalogs es

/-- Collect, in order, the prompt strings shown by a trace. -/
def promptStrings : List Event → List String
  | [] => []
  | Event.promptEv s :: es => s :: promptStrings es
  | _ :: es => promptStrings es

/-- Is an event a tool-discovery event? -/
def isDiscover : Event → Bool
  | Event.discoverEv _ => true
  | _ => false

/-- A concrete agent oracle whose reasoning ends at once with the final
answer `"hello"`: the framework returns the input messages extended with the
assistant reply, exactly the shape `agent.ainvoke` hands back. -/
def okHello : List Message → Except String (List Message) :=
  fun h => Except.ok (h ++ [⟨"assistant", "hello"⟩])

/-- A concrete failing agent oracle: `ainvoke` raises with message
`"boom"`. -/
def errBoom : List Message → Except String (List Message) :=
  fun _ => Except.error "boom"

/-- A concrete spec-model oracle that always decides to call a tool and
never emits a final answer. -/
def alwaysToolCall : List Message → AgentDecision :=
  fun _ => AgentDecision.toolCall "firecrawl_scrape" "url"

/-- A concrete spec-model tool invoker that always succeeds. -/
def alwaysOkTool : String → String → ToolResult :=
  fun _ _ => ToolResult.success "ok"

/-- A concrete input longer than the 175000-character cap. -/
def bigInput : String := ⟨List.replicate 175001 'a'⟩

/-- The message list `okHello` hands back on the history
`[systemMessage, userMsg "hi"]`. -/
def helloHistory : List Message :=
  [systemMessage, userMsg "hi", ⟨"assistant", "hello"⟩]

/-! ### Turn-level helper lemmas -/

theorem replTurn_quit (a : List Message → Except String (List Message))
    (tn : List String) (h : List Message) (input : String)
    (hq : input = "quit" ∨ input = "q") :
    replTurn a tn h input = ⟨h, [Event.outputEv "Goodbye!"], true⟩ := by
  unfold replTurn
  rw [if_pos hq]

theorem replTurn_err (a : List Message → Except String (List Message))
    (tn : List String) (h : List Message) (input : String)
    (hne : ¬(input = "quit" ∨ input = "q")) (e : String)
    (herr : a (h ++ [userMsg input]) = Except.error e) :
    replTurn a tn h input =
      ⟨h ++ [userMsg input],
       [Event.invokeEv tn (h ++ [userMsg input]),
        Event.outputEv ("Error: " ++ e)], false⟩ := by
  simp only [replTurn, if_neg hne, herr]

theorem replTurn_ok (a : List Message → Except String (List Message))
    (tn : List String) (h : List Message) (input : String)
    (hne : ¬(input = "quit" ∨ input = "q")) (msgs : List Message) (m : Message)
    (hok : a (h ++ [userMsg input]) = Except.ok msgs)
    (hlast : msgs.getLast? = some m) :
    replTurn a tn h input =
      ⟨h ++ [userMsg input],
       [Event.invokeEv tn (h ++ [userMsg input]),
        Event.outputEv ("\nAgent: " ++ m.content)], false⟩ := by
  simp only [replTurn, if_neg hne, hok, hlast]

theorem replTurn_ne_spec (a : List Message → Except String (List Message))
    (tn : List String) (h : List Message) (input : String)
    (hne : ¬(input = "quit" ∨ input = "q")) :
    (replTurn a tn h input).exited = false ∧
    (replTurn a tn h input).history = h ++ [userMsg input] ∧
    (replTurn a tn h input).events.head? =
      some (Event.invokeEv tn (h ++ [userMsg input])) := by
  simp only [replTurn, if_neg hne]
  cases haa : a (h ++ [userMsg input]) with
  | ok msgs => cases hl : msgs.getLast? <;> simp [hl]
  | error e => simp

theorem head?_mem_of_eq_some {α : Type} {l : List α} {x : α}
    (hx : l.head? = some x) : x ∈ l := by
  cases l with
  | nil => simp at hx
  | cons y t =>
    simp only [List.head?_cons, Option.some.injEq] at hx
    rw [← hx]
    exact List.mem_cons_self y t

/-! ### Claim theorems (turn level) -/

/-- C3: if the LLM oracle invocation raises an error during a turn, the turn
aborts by printing an `Error:` line and does not exit the REPL, and the
history still contains the user message appended for the turn (no
rollback). -/
theorem oracle_error_aborts_turn (a : List Message → Except String (List Message))
    (tn : List String) (h : List Message) (input : String)
    (hne : ¬(input = "quit" ∨ input = "q")) (e : String)
    (herr : a (h ++ [userMsg input]) = Except.error e) :
    (replTurn a tn h input).exited = false ∧
    (replTurn a tn h input).history = h ++ [userMsg input] ∧
    Event.outputEv ("Error: " ++ e) ∈ (replTurn a tn h input).events := by
  rw [replTurn_err a tn h input hne e herr]
  refine ⟨rfl, rfl, ?_⟩
  simp

/-- Witness for C3 at a concrete failing oracle and input `"hi"`. -/
theorem oracle_error_aborts_turn_witness :
    ¬("hi" = "quit" ∨ "hi" = "q") ∧
    errBoom ([systemMessage] ++ [userMsg "hi"]) = Except.error "boom" ∧
    ((replTurn errBoom [] [systemMessage] "hi").exited = false ∧
     (replTurn errBoom [] [systemMessage] "hi").history =
       [systemMessage] ++ [userMsg "hi"] ∧
     Event.outputEv ("Error: " ++ "boom") ∈
       (replTurn errBoom [] [systemMessage] "hi").events) :=
  ⟨by decide, rfl,
   oracle_error_aborts_turn errBoom [] [systemMessage] "hi" (by decide) "boom" rfl⟩

/-- C5: a user input longer than the 175000-character cap is stored in
history as a user message whose content has length exactly 175000 and is a
strict prefix of the original input. -/
theorem capped_input_stored (a : List Message → Except String (List Message))
    (tn : List String) (h : List Message) (input : String)
    (hne : ¬(input = "quit" ∨ input = "q"))
    (hlen : inputCap < input.length) :
    (replTurn a tn h input).history = h ++ [userMsg input] ∧
    (userMsg input).content.length = inputCap ∧
    (userMsg input).content.data <+: input.data ∧
    (userMsg input).content ≠ input := by
  refine ⟨(replTurn_ne_spec a tn h input hne).2.1, ?_, ?_, ?_⟩
  · show (input.data.take inputCap).length = inputCap
    rw [List.length_take]
    exact Nat.min_eq_left (Nat.le_of_lt hlen)
  · exact List.take_prefix inputCap input.data
  · intro heq
    have hl := congrArg String.length heq
    have hl' : (input.data.take inputCap).length = input.length := hl
    rw [List.length_take] at hl'
    have := Nat.min_eq_left (Nat.le_of_lt hlen)
    omega

/-- Witness for C5 at a concrete 175001-character input. -/
theorem capped_input_stored_witness :
    ¬(bigInput = "quit" ∨ bigInput = "q") ∧
    inputCap < bigInput.length ∧
    ((replTurn errBoom [] [] bigInput).history = [] ++ [userMsg bigInput] ∧
     (userMsg bigInput).content.length = inputCap ∧
     (userMsg bigInput).content.data <+: bigInput.data ∧
     (userMsg bigInput).content ≠ bigInput) := by
  have hne : ¬(bigInput = "quit" ∨ bigInput = "q") := by decide
  have hlen : inputCap < bigInput.length := by
    show inputCap < (List.replicate 175001 'a').length
    rw [List.length_replicate]
    decide
  exact ⟨hne, hlen, capped_input_stored errBoom [] [] bigInput hne hlen⟩

/-- C6: the inputs `"quit"` and `"q"` terminate the REPL: the turn exits,
appends no message to history, emits no agent invocation, and the run stops
without reading the remaining inputs. -/
theorem exit_tokens_terminate (a : List Message → Except String (List Message))
    (tn : List String) (h : List Message) (input : String) (rest : List String)
    (hq : input = "quit" ∨ input = "q") :
    (replTurn a tn h input).exited = true ∧
    (replTurn a tn h input).history = h ∧
    (replTurn a tn h input).events = [Event.outputEv "Goodbye!"] ∧
    replRun a tn h (input :: rest) =
      (h, [Event.promptEv "\nYou: ", Event.outputEv "Goodbye!"]) := by
  have ht := replTurn_quit a tn h input hq
  refine ⟨by rw [ht], by rw [ht], by rw [ht], ?_⟩
  simp [replRun, ht]

/-- Witness for C6 at input `"quit"` with a pending further input. -/
theorem exit_tokens_terminate_witness :
    ("quit" = "quit" ∨ "quit" = "q") ∧
    replRun errBoom [] [systemMessage] ["quit", "later"] =
      ([systemMessage], [Event.promptEv "\nYou: ", Event.outputEv "Goodbye!"]) :=
  ⟨Or.inl rfl,
   (exit_tokens_terminate errBoom [] [systemMessage] "quit" ["later"]
     (Or.inl rfl)).2.2.2⟩

/-- C9: exit-token matching is exact and case-sensitive: any input other
than `"quit"` and `"q"` does not exit the REPL; it is capped and appended to
history as a user message, and the agent is invoked on the new history. -/
theorem nonexit_inputs_invoke_agent (a : List Message → Except String (List Message))
    (tn : List String) (h : List Message) (input : String)
    (hq : input ≠ "quit") (hq' : input ≠ "q") :
    (replTurn a tn h input).exited = false ∧
    (replTurn a tn h input).history = h ++ [userMsg input] ∧
    Event.invokeEv tn (h ++ [userMsg input]) ∈ (replTurn a tn h input).events := by
  have hne : ¬(input = "quit" ∨ input = "q") := not_or.mpr ⟨hq, hq'⟩
  obtain ⟨h1, h2, h3⟩ := replTurn_ne_spec a tn h input hne
  exact ⟨h1, h2, head?_mem_of_eq_some h3⟩

/-- Witness for C9 at the case variant `"Quit"`, which must not exit. -/
theorem nonexit_inputs_invoke_agent_witness :
    ("Quit" : String) ≠ "quit" ∧ ("Quit" : String) ≠ "q" ∧
    ((replTurn errBoom [] [systemMessage] "Quit").exited = false ∧
     (replTurn errBoom [] [systemMessage] "Quit").history =
       [systemMessage] ++ [userMsg "Quit"] ∧
     Event.invokeEv [] ([systemMessage] ++ [userMsg "Quit"]) ∈
       (replTurn errBoom [] [systemMessage] "Quit").events) :=
  ⟨by decide, by decide,
   nonexit_inputs_invoke_agent errBoom [] [systemMessage] "Quit"
     (by decide) (by decide)⟩

/-! ### Run-level helper lemmas -/

theorem head?_append_left {α : Type} (l l₂ : List α) (x : α)
    (hx : l.head? = some x) : (l ++ l₂).head? = some x := by
  cases l with
  | nil => simp at hx
  | cons y t => simpa using hx

theorem replTurn_history_cases (a : List Message → Except String (List Message))
    (tn : List String) (h : List Message) (input : String) :
    (replTurn a tn h input).history = h ∨
    (replTurn a tn h input).history = h ++ [userMsg input] := by
  by_cases hq : input = "quit" ∨ input = "q"
  · left; rw [replTurn_quit a tn h input hq]
  · right; exact (replTurn_ne_spec a tn h input hq).2.1

theorem replTurn_events_cases (a : List Message → Except String (List Message))
    (tn : List String) (h : List Message) (input : String) :
    (replTurn a tn h input).events = [Event.outputEv "Goodbye!"] ∨
    ∃ s, (replTurn a tn h input).events =
      [Event.invokeEv tn (h ++ [userMsg input]), Event.outputEv s] := by
  by_cases hq : input = "quit" ∨ input = "q"
  · left; rw [replTurn_quit a tn h input hq]
  · right
    simp only [replTurn, if_neg hq]
    cases haa : a (h ++ [userMsg input]) with
    | ok msgs =>
      cases hl : msgs.getLast? with
      | none => exact ⟨"Error: " ++ indexErrorMsg, by simp [hl]⟩
      | some m => exact ⟨"\nAgent: " ++ m.content, by simp [hl]⟩
    | error e => exact ⟨"Error: " ++ e, by simp⟩

theorem replRun_history_append (a : List Message → Except String (List Message))
    (tn : List String) :
    ∀ (inputs : List String) (h : List Message),
      ∃ tl : List Message,
        (replRun a tn h inputs).1 = h ++ tl ∧ ∀ m ∈ tl, m.role = "user" := by
  intro inputs
  induction inputs with
  | nil => intro h; exact ⟨[], by simp [replRun], by simp⟩
  | cons input rest ih =>
    intro h
    by_cases hex : (replTurn a tn h input).exited = true
    · refine ⟨[], ?_, by simp⟩
      rcases replTurn_history_cases a tn h input with hh | hh
      · simp [replRun, hex, hh]
      · -- an exiting turn leaves history unchanged
        rcases (em (input = "quit" ∨ input = "q")) with hq | hq
        · rw [replTurn_quit a tn h input hq] at hh
          simp only [List.append_right_eq_self] at hh
          simp [replRun, hex, replTurn_quit a tn h input hq]
        · rw [(replTurn_ne_spec a tn h input hq).1] at hex
          simp at hex
    · obtain ⟨tl, htl, hroles⟩ := ih (replTurn a tn h input).history
      have hq : ¬(input = "quit" ∨ input = "q") := by
        intro hq
        rw [replTurn_quit a tn h input hq] at hex
        simp at hex
      refine ⟨userMsg input :: tl, ?_, ?_⟩
      · have hstep : (replRun a tn h (input :: rest)).1 =
            (replRun a tn (replTurn a tn h input).history rest).1 := by
          simp [replRun, hex]
        rw [hstep, htl, (replTurn_ne_spec a tn h input hq).2.1, List.append_assoc,
          List.singleton_append]
      · intro m hm
        rcases List.mem_cons.mp hm with hm | hm
        · rw [hm]; rfl
        · exact hroles m hm

theorem invokeHistories_append (l₁ l₂ : List Event) :
    invokeHistories (l₁ ++ l₂) = invokeHistories l₁ ++ invokeHistories l₂ := by
  induction l₁ with
  | nil => rfl
  | cons e t ih => cases e <;> simp [invokeHistories, ih]

theorem invokeCatalogs_append (l₁ l₂ : List Event) :
    invokeCatalogs (l₁ ++ l₂) = invokeCatalogs l₁ ++ invokeCatalogs l₂ := by
  induction l₁ with
  | nil => rfl
  | cons e t ih => cases e <;> simp [invokeCatalogs, ih]

theorem promptStrings_append (l₁ l₂ : List Event) :
    promptStrings (l₁ ++ l₂) = promptStrings l₁ ++ promptStrings l₂ := by
  induction l₁ with
  | nil => rfl
  | cons e t ih => cases e <;> simp [promptStrings, ih]

theorem replTurn_promptStrings (a : List Message → Except String (List Message))
    (tn : List String) (h : List Message) (input : String) :
    promptStrings (replTurn a tn h input).events = [] := by
  rcases replTurn_events_cases a tn h input with he | ⟨s, he⟩ <;> rw [he] <;> rfl

theorem replTurn_no_discover (a : List Message → Except String (List Message))
    (tn : List String) (h : List Message) (input : String) :
    (replTurn a tn h input).events.filter isDiscover = [] := by
  rcases replTurn_events_cases a tn h input with he | ⟨s, he⟩ <;> rw [he] <;> rfl

theorem replTurn_invokeCatalogs (a : List Message → Except String (List Message))
    (tn : List String) (h : List Message) (input : String) :
    invokeCatalogs (replTurn a tn h input).events = [] ∨
    invokeCatalogs (replTurn a tn h input).events = [tn] := by
  rcases replTurn_events_cases a tn h input with he | ⟨s, he⟩
  · left; rw [he]; rfl
  · right; rw [he]; rfl

theorem replTurn_invokeHistories (a : List Message → Except String (List Message))
    (tn : List String) (h : List Message) (input : String) :
    invokeHistories (replTurn a tn h input).events = [] ∨
    invokeHistories (replTurn a tn h input).events = [h ++ [userMsg input]] := by
  rcases replTurn_events_cases a tn h input with he | ⟨s, he⟩
  · left; rw [he]; rfl
  · right; rw [he]; rfl

theorem replRun_prompts (a : List Message → Except String (List Message))
    (tn : List String) :
    ∀ (inputs : List String) (h : List Message),
      (promptStrings (replRun a tn h inputs).2).all
        (fun s => s == "\nYou: ") = true := by
  intro inputs
  induction inputs with
  | nil => intro h; rfl
  | cons input rest ih =>
    intro h
    have hpt := replTurn_promptStrings a tn h input
    by_cases hex : (replTurn a tn h input).exited = true
    · simp [replRun, hex, promptStrings, hpt]
    · simp [replRun, hex, promptStrings, promptStrings_append, hpt, ih]

theorem replRun_no_discover (a : List Message → Except String (List Message))
    (tn : List String) :
    ∀ (inputs : List String) (h : List Message),
      (replRun a tn h inputs).2.filter isDiscover = [] := by
  intro inputs
  induction inputs with
  | nil => intro h; rfl
  | cons input rest ih =>
    intro h
    have hf := replTurn_no_discover a tn h input
    by_cases hex : (replTurn a tn h input).exited = true
    · simp [replRun, hex, List.filter_cons, isDiscover, hf]
    · simp [replRun, hex, List.filter_cons, isDiscover, List.filter_append, hf, ih]

theorem replRun_invokeCatalogs (a : List Message → Except String (List Message))
    (tn : List String) :
    ∀ (inputs : List String) (h : List Message),
      (invokeCatalogs (replRun a tn h inputs).2).all (fun c => c == tn) = true := by
  intro inputs
  induction inputs with
  | nil => intro h; rfl
  | cons input rest ih =>
    intro h
    by_cases hex : (replTurn a tn h input).exited = true
    · rcases replTurn_invokeCatalogs a tn h input with hc | hc <;>
        simp [replRun, hex, invokeCatalogs, hc]
    · rcases replTurn_invokeCatalogs a tn h input with hc | hc <;>
        simp [replRun, hex, invokeCatalogs, invokeCatalogs_append, hc, ih]

theorem replRun_invokeHistories_head (a : List Message → Except String (List Message))
    (tn : List String) (m₀ : Message) :
    ∀ (inputs : List String) (h : List Message), h.head? = some m₀ →
      (invokeHistories (replRun a tn h inputs).2).all
        (fun hst => hst.head? == some m₀) = true := by
  intro inputs
  induction inputs with
  | nil => intro h _; rfl
  | cons input rest ih =>
    intro h hh
    have hh' : (replTurn a tn h input).history.head? = some m₀ := by
      rcases replTurn_history_cases a tn h input with hc | hc <;> rw [hc]
      · exact hh
      · exact head?_append_left h [userMsg input] m₀ hh
    have hrec := ih (replTurn a tn h input).history hh'
    have hturn : (invokeHistories (replTurn a tn h input).events).all
        (fun hst => hst.head? == some m₀) = true := by
      rcases replTurn_invokeHistories a tn h input with hi | hi <;> rw [hi]
      · rfl
      · simp [head?_append_left h [userMsg input] m₀ hh]
    by_cases hex : (replTurn a tn h input).exited = true
    · simp [replRun, hex, invokeHistories, hturn]
    · simp only [replRun, hex, if_false, Bool.false_eq_true]
      simp [invokeHistories, invokeHistories_append, List.all_append, hturn, hrec]

/-! ### Claim theorems (run level) -/

/-- C4: histories are append-only: every REPL turn and every REPL run leave
the incoming history as a prefix of the resulting history — entries are
never mutated, removed, or reordered; each operation either leaves the
history unchanged or appends new messages at the end. -/
theorem history_append_only :
    (∀ (a : List Message → Except String (List Message)) (tn : List String)
       (h : List Message) (input : String),
       h <+: (replTurn a tn h input).history) ∧
    (∀ (a : List Message → Except String (List Message)) (tn : List String)
       (h : List Message) (inputs : List String),
       h <+: (replRun a tn h inputs).1) := by
  constructor
  · intro a tn h input
    rcases replTurn_history_cases a tn h input with hc | hc
    · rw [hc]
    · rw [hc]
      exact List.prefix_append h [userMsg input]
  · intro a tn h inputs
    obtain ⟨tl, htl, _⟩ := replRun_history_append a tn inputs h
    rw [htl]
    exact List.prefix_append h tl

/-- C7: the tool catalog is a snapshot taken exactly once at session start:
the run's first event is the one tool discovery (before the banner and every
prompt), no other discovery event ever occurs, and every agent invocation of
the run carries exactly the discovered catalog. -/
theorem catalog_snapshot_once (a : List Message → Except String (List Message))
    (tn : List String) (inputs : List String) :
    (mainRun a tn inputs).2.head? = some (Event.discoverEv tn) ∧
    (mainRun a tn inputs).2.filter isDiscover = [Event.discoverEv tn] ∧
    (invokeCatalogs (mainRun a tn inputs).2).all (fun c => c == tn) = true := by
  have hm : (mainRun a tn inputs).2 =
      Event.discoverEv tn :: Event.outputEv (bannerLine tn) ::
      Event.outputEv dashLine :: (replRun a tn [systemMessage] inputs).2 := rfl
  refine ⟨by rw [hm]; rfl, ?_, ?_⟩
  · rw [hm]
    simp [List.filter_cons, isDiscover, replRun_no_discover a tn inputs [systemMessage]]
  · rw [hm]
    show (invokeCatalogs (replRun a tn [systemMessage] inputs).2).all
      (fun c => c == tn) = true
    exact replRun_invokeCatalogs a tn inputs [systemMessage]

/-- C10: the system prompt is installed exactly once before the REPL loop:
it is the first message of the final history, the only system-role message
in it, and the head of the history passed to every agent invocation of the
run. -/
theorem system_prompt_first_and_unique (a : List Message → Except String (List Message))
    (tn : List String) (inputs : List String) :
    (mainRun a tn inputs).1.head? = some systemMessage ∧
    (mainRun a tn inputs).1.filter (fun m => m.role == "system") =
      [systemMessage] ∧
    (invokeHistories (mainRun a tn inputs).2).all
      (fun hst => hst.head? == some systemMessage) = true := by
  have hm1 : (mainRun a tn inputs).1 = (replRun a tn [systemMessage] inputs).1 := rfl
  have hm2 : (mainRun a tn inputs).2 =
      Event.discoverEv tn :: Event.outputEv (bannerLine tn) ::
      Event.outputEv dashLine :: (replRun a tn [systemMessage] inputs).2 := rfl
  obtain ⟨tl, htl, hroles⟩ := replRun_history_append a tn inputs [systemMessage]
  refine ⟨?_, ?_, ?_⟩
  · rw [hm1, htl]; rfl
  · rw [hm1, htl]
    show List.filter (fun m => m.role == "system") (systemMessage :: tl) = _
    rw [List.filter_cons]
    have hsys : ((systemMessage.role == "system") = true) := rfl
    rw [if_pos hsys]
    have htlnil : tl.filter (fun m => m.role == "system") = [] := by
      refine List.filter_eq_nil_iff.mpr ?_
      intro m hm
      rw [hroles m hm]
      decide
    rw [htlnil]
  · rw [hm2]
    show (invokeHistories (replRun a tn [systemMessage] inputs).2).all
      (fun hst => hst.head? == some systemMessage) = true
    exact replRun_invokeHistories_head a tn systemMessage inputs [systemMessage] rfl

/-- C8: the user-facing surface: the run's trace opens with the tool
discovery and the startup banner lines (so the banner precedes every
prompt), every prompt shown is the line-oriented `"\nYou: "`, a successful
turn prints `"\nAgent: "` followed by the answer text, and a failed turn
prints `"Error: "` followed by the error message. -/
theorem user_surface (a : List Message → Except String (List Message))
    (tn : List String) (inputs : List String) (h : List Message)
    (input : String) (hne : ¬(input = "quit" ∨ input = "q")) :
    (mainRun a tn inputs).2.take 3 =
      [Event.discoverEv tn, Event.outputEv (bannerLine tn),
       Event.outputEv dashLine] ∧
    (promptStrings (mainRun a tn inputs).2).all
      (fun s => s == "\nYou: ") = true ∧
    (∀ (msgs : List Message) (m : Message),
      a (h ++ [userMsg input]) = Except.ok msgs → msgs.getLast? = some m →
      Event.outputEv ("\nAgent: " ++ m.content) ∈ (replTurn a tn h input).events) ∧
    (∀ e : String, a (h ++ [userMsg input]) = Except.error e →
      Event.outputEv ("Error: " ++ e) ∈ (replTurn a tn h input).events) := by
  have hm : (mainRun a tn inputs).2 =
      Event.discoverEv tn :: Event.outputEv (bannerLine tn) ::
      Event.outputEv dashLine :: (replRun a tn [systemMessage] inputs).2 := rfl
  refine ⟨by rw [hm]; rfl, ?_, ?_, ?_⟩
  · rw [hm]
    show (promptStrings (replRun a tn [systemMessage] inputs).2).all
      (fun s => s == "\nYou: ") = true
    exact replRun_prompts a tn inputs [systemMessage]
  · intro msgs m hok hlast
    rw [replTurn_ok a tn h input hne msgs m hok hlast]
    simp
  · intro e herr
    rw [replTurn_err a tn h input hne e herr]
    simp

/-- Witness for C8: a concrete run with one turn, plus a concrete successful
and a concrete failing turn. -/
theorem user_surface_witness :
    (mainRun okHello ["firecrawl_scrape"] ["hi"]).2.take 3 =
      [Event.discoverEv ["firecrawl_scrape"],
       Event.outputEv (bannerLine ["firecrawl_scrape"]),
       Event.outputEv dashLine] ∧
    (promptStrings (mainRun okHello ["firecrawl_scrape"] ["hi"]).2).all
      (fun s => s == "\nYou: ") = true ∧
    Event.outputEv ("\nAgent: " ++ "hello") ∈
      (replTurn okHello ["firecrawl_scrape"] [systemMessage] "hi").events ∧
    Event.outputEv ("Error: " ++ "boom") ∈
      (replTurn errBoom ["firecrawl_scrape"] [systemMessage] "hi").events :=
  ⟨(user_surface okHello ["firecrawl_scrape"] ["hi"] [systemMessage] "hi"
      (by decide)).1,
   (user_surface okHello ["firecrawl_scrape"] ["hi"] [systemMessage] "hi"
      (by decide)).2.1,
   (user_surface okHello ["firecrawl_scrape"] ["hi"] [systemMessage] "hi"
      (by decide)).2.2.1 helloHistory ⟨"assistant", "hello"⟩ rfl rfl,
   (user_surface errBoom ["firecrawl_scrape"] ["hi"] [systemMessage] "hi"
      (by decide)).2.2.2 "boom" rfl⟩

/-- C1 counterexample: with an oracle whose reasoning ends at once in the
final answer `"hello"` on the input `"hi"`, the answer is printed as the
turn's result, yet no assistant message is appended to the conversation
history — the history gains only the user message, refuting the claim that
the final answer text is appended to history. -/
theorem final_answer_not_appended :
    Event.outputEv ("\nAgent: " ++ "hello") ∈
      (replTurn okHello [] [systemMessage] "hi").events ∧
    (replTurn okHello [] [systemMessage] "hi").history =
      [systemMessage, userMsg "hi"] ∧
    (⟨"assistant", "hello"⟩ : Message) ∉
      (replTurn okHello [] [systemMessage] "hi").history := by
  decide

/-- C1 (amended): when the reasoning loop produces a final answer, the
answer text is printed as the turn's result, but it is not appended to the
conversation history: the turn leaves only the user message appended, so
subsequent turns' oracle queries do not see prior assistant replies. -/
theorem final_answer_printed_not_recorded
    (a : List Message → Except String (List Message)) (tn : List String)
    (h : List Message) (input : String)
    (hne : ¬(input = "quit" ∨ input = "q")) (msgs : List Message) (m : Message)
    (hok : a (h ++ [userMsg input]) = Except.ok msgs)
    (hlast : msgs.getLast? = some m) :
    Event.outputEv ("\nAgent: " ++ m.content) ∈ (replTurn a tn h input).events ∧
    (replTurn a tn h input).history = h ++ [userMsg input] := by
  rw [replTurn_ok a tn h input hne msgs m hok hlast]
  exact ⟨by simp, rfl⟩

/-- Witness for the amended C1 at a concrete oracle and input. -/
theorem final_answer_printed_not_recorded_witness :
    ¬(("hi" : String) = "quit" ∨ ("hi" : String) = "q") ∧
    okHello ([systemMessage] ++ [userMsg "hi"]) = Except.ok helloHistory ∧
    (Event.outputEv ("\nAgent: " ++ "hello") ∈
      (replTurn okHello [] [systemMessage] "hi").events ∧
    (replTurn okHello [] [systemMessage] "hi").history =
      [systemMessage] ++ [userMsg "hi"]) :=
  ⟨by decide, rfl,
   final_answer_printed_not_recorded okHello [] [systemMessage] "hi"
     (by decide) helloHistory ⟨"assistant", "hello"⟩ rfl rfl⟩

/-- C2: the reasoning loop is bounded: for any oracle that keeps deciding
tool calls and never emits a final answer, the loop over the spec-modelled
reasoning step terminates after exactly `fuel` oracle queries and yields the
`FinalAnswer`-shaped abort-fallback message instead of looping forever. -/
theorem reasoning_loop_bounded (oracle : List Message → AgentDecision)
    (invokeTool : String → String → ToolResult) (catalog : List String)
    (horacle : ∀ h, ∃ name args, oracle h = AgentDecision.toolCall name args) :
    ∀ (fuel : Nat) (h : List Message),
      (reasoningLoop oracle invokeTool catalog fuel h).2.1 = abortFallback ∧
      (reasoningLoop oracle invokeTool catalog fuel h).2.2 = fuel := by
  intro fuel
  induction fuel with
  | zero => intro h; exact ⟨rfl, rfl⟩
  | succ n ih =>
    intro h
    obtain ⟨name, args, hna⟩ := horacle h
    simp only [reasoningLoop, hna]
    constructor
    · exact (ih _).1
    · rw [(ih _).2]

/-- Witness for C2: the always-tool-calling oracle exhausts a bound of 3
iterations and ends with the abort fallback. -/
theorem reasoning_loop_bounded_witness :
    (reasoningLoop alwaysToolCall alwaysOkTool ["firecrawl_scrape"] 3
      [systemMessage]).2.1 = abortFallback ∧
    (reasoningLoop alwaysToolCall alwaysOkTool ["firecrawl_scrape"] 3
      [systemMessage]).2.2 = 3 :=
  reasoning_loop_bounded alwaysToolCall alwaysOkTool ["firecrawl_scrape"]
    (fun _ => ⟨"firecrawl_scrape", "url", rfl⟩) 3 [systemMessage]

end SimpleAgent
